import Mathlib

/-!
A Lean model of `src/einx/expr/stage3.py`: the concrete expression-tree data
model (`Axis`, `List`, `Concatenation`, `Composition`, `Marker`), the value
resolver `solve`, and the structural rewrite operations built on `_expr_map`
(`demark`, `remove_unnamed_trivial_axes`, `mark`, `get_marked`, `get_unmarked`).

Modelling conventions, recorded once here:
* Python integers are `Int`.  `np.prod(...).astype(int)` reduces the product to
  a signed 64-bit integer and `np.sum(...).astype("int32")` reduces the sum to
  signed 64 bits and then to signed 32 bits; `toInt64` / `toInt32` model those
  reductions explicitly.  (For inputs outside the 64-bit range numpy would take
  an object-dtype path; in-range inputs, the only ones exercised here, behave
  exactly as modelled.)
* An `Axis` stores the final `name` string: `Axis(None, v)` stores
  `"unnamed." + str(id(self))` and `is_unnamed` tests the `"unnamed."` prefix.
  Where the code creates a fresh unnamed axis (`Axis(None, 1)`), the model uses
  the name `"unnamed.fresh"`: the numeric suffix is a memory address, and
  structural equality (`Axis.__eq__`) ignores the suffix of unnamed names.
* Constructor validation (`List.__init__`, `Concatenation.__init__`,
  `Marker.__init__` raising `ValueError`) is modelled by the `Except`-valued
  smart constructors `mkList`, `mkConcat`, `mkMarker`; the raw inductive
  constructors model an already-constructed node.
* The rewrite engine `_expr_map` is modelled once per operation, with the
  visitor function inlined, because each operation instantiates the visitor
  with a fixed function; the parent-pointer predicates (`is_concat_child`,
  `is_marked`, the parent check in `mark`) become context flags threaded
  through the recursion, which is exactly what the parent chain computes.
-/

/-- Reduction of an integer to signed 32-bit, as `astype("int32")` does. -/
def toInt32 (n : Int) : Int := (n + 2 ^ 31) % 2 ^ 32 - 2 ^ 31

/-- Reduction of an integer to signed 64-bit, as `astype(int)` (platform int)
and numpy int64 accumulation do. -/
def toInt64 (n : Int) : Int := (n + 2 ^ 63) % 2 ^ 64 - 2 ^ 63

/-- The concrete (stage3) expression tree: node kinds `Axis`, `List`,
`Concatenation`, `Composition`, `Marker` of `stage3.py`. -/
inductive Expr where
  | axis (name : String) (value : Int)
  | list (children : List Expr)
  | concat (children : List Expr)
  | comp (inner : Expr)
  | marker (inner : Expr)

/-- `Axis.is_unnamed`: the stored name starts with `"unnamed."` (the prefix
test is expressed on the character data so that it computes by reduction). -/
def isUnnamed (n : String) : Bool := "unnamed.".data.isPrefixOf n.data

def isList : Expr → Bool
  | .list _ => true
  | _ => false

def isAxisB : Expr → Bool
  | .axis _ _ => true
  | _ => false

def isMarkerB : Expr → Bool
  | .marker _ => true
  | _ => false

mutual
/-- `__len__` of each node kind: `Axis`, `Concatenation`, `Composition` have
length 1, a `List` sums its children, a `Marker` is transparent. -/
def Expr.len : Expr → Nat
  | .axis _ _ => 1
  | .list cs => lenL cs
  | .concat _ => 1
  | .comp _ => 1
  | .marker i => i.len

def lenL : List Expr → Nat
  | [] => 0
  | c :: cs => c.len + lenL cs
end

mutual
/-- The stored `value` of each node: an `Axis` stores its given value, a `List`
stores `np.prod(child values).astype(int)`, a `Concatenation` stores
`np.sum(child values).astype("int32")`, `Composition`/`Marker` copy `inner.value`. -/
def Expr.value : Expr → Int
  | .axis _ v => v
  | .list cs => toInt64 (prodValues cs)
  | .concat cs => toInt32 (toInt64 (sumValues cs))
  | .comp i => i.value
  | .marker i => i.value

/-- Product of the children's stored values (`np.prod` of an empty list is 1). -/
def prodValues : List Expr → Int
  | [] => 1
  | c :: cs => c.value * prodValues cs

/-- Sum of the children's stored values. -/
def sumValues : List Expr → Int
  | [] => 0
  | c :: cs => c.value + sumValues cs
end

mutual
/-- Structural equality, mirroring the `__eq__` methods: nodes of different
kinds are never equal; `Axis.__eq__` first compares unnamedness, then values,
and compares names only for named axes. -/
def Expr.eqb : Expr → Expr → Bool
  | .axis n1 v1, .axis n2 v2 =>
      if isUnnamed n1 != isUnnamed n2 then false
      else if v1 != v2 then false
      else if isUnnamed n1 then true
      else n1 == n2
  | .list c1, .list c2 => eqbL c1 c2
  | .concat c1, .concat c2 => eqbL c1 c2
  | .comp a, .comp b => a.eqb b
  | .marker a, .marker b => a.eqb b
  | _, _ => false

def eqbL : List Expr → List Expr → Bool
  | [], [] => true
  | a :: l1, b :: l2 => a.eqb b && eqbL l1 l2
  | _, _ => false
end

/-- `Axis.__hash__`: `9817234 + (hash(name) if named else 0) + hash(value)`,
over arbitrary hash functions for strings and integers. -/
def axisHash (hs : String → Int) (hi : Int → Int) (n : String) (v : Int) : Int :=
  9817234 + (if isUnnamed n then 0 else hs n) + hi v

/-- `List.__init__`: rejects a direct `List` child. -/
def mkList (children : List Expr) : Except String Expr :=
  if children.any isList then .error "List cannot have another List as direct child"
  else .ok (.list children)

/-- `Concatenation.__init__`: rejects an empty child list, then any child of
length other than 1.  (The diagnostic text is abbreviated.) -/
def mkConcat (children : List Expr) : Except String Expr :=
  if children.isEmpty then .error "Concatenation must have at least one child"
  else if children.any (fun c => c.len != 1) then
    .error "Concatenation can only be used on expressions of length 1"
  else .ok (.concat children)

/-- `Marker.__init__`: rejects an inner expression of length 0. -/
def mkMarker (inner : Expr) : Except String Expr :=
  if inner.len = 0 then .error "Marker cannot have empty list as child"
  else .ok (.marker inner)

/-- `List.maybe` on the success path: a singleton list yields its element,
anything else is wrapped in a `List` node.  (Inside the rewrite engine the
collected pieces are never `List` nodes, so `List.__init__` cannot fail there.) -/
def listMaybe : List Expr → Expr
  | [e] => e
  | l => .list l

/-- `List.maybe` with the `List.__init__` validation, used where a failure is
reachable (`_get_marked`). -/
def listMaybeE : List Expr → Except String Expr
  | [e] => .ok e
  | l => mkList l

/-- `Concatenation.maybe` with the `Concatenation.__init__` validation. -/
def concatMaybeE : List Expr → Except String Expr
  | [e] => .ok e
  | l => mkConcat l

/-- The `Concatenation` child rule of `_expr_map`: a child that rewrote to an
expression of length 0 is replaced by a fresh unnamed axis of value 1. -/
def emptyToAxis1 (e : Expr) : Expr :=
  if e.len = 0 then .axis "unnamed.fresh" 1 else e

mutual
/-- `demark` via `_expr_map`: the visitor replaces every `Marker` by its inner
content with `REPLACE_AND_CONTINUE` (a `List` replacement is spliced as its
children); all other nodes continue with the kind-specific recursion rule.
`demarkL e` is the list of sibling expressions `_expr_map` returns for `e`. -/
def demarkL : Expr → List Expr
  | .axis n v => [.axis n v]
  | .list cs => demarkLs cs
  | .concat cs => [.concat (demarkCs cs)]
  | .comp i => [.comp (listMaybe (demarkL i))]
  | .marker i => demarkL i

/-- `List` rule: recurse into each child and splice all results in order. -/
def demarkLs : List Expr → List Expr
  | [] => []
  | c :: cs => demarkL c ++ demarkLs cs

/-- `Concatenation` rule: each child becomes `List.maybe` of its rewrite, with
an empty result replaced by a fresh unnamed axis of value 1. -/
def demarkCs : List Expr → List Expr
  | [] => []
  | c :: cs => emptyToAxis1 (listMaybe (demarkL c)) :: demarkCs cs
end

/-- `demark(expr)`: `List.maybe` of the spliced results. -/
def demark (e : Expr) : Expr := listMaybe (demarkL e)

/-- The predicate of `remove_unnamed_trivial_axes`: an unnamed axis of value 1
that is not a (marker-wrapped-)direct child of a `Concatenation`; the flag `f`
is the value of `is_concat_child` at the current node. -/
def rutaPred (f : Bool) : Expr → Bool
  | .axis n v => isUnnamed n && v == 1 && !f
  | _ => false

/-- The `remove` visitor step: a node matching the predicate is deleted
(`REPLACE_AND_STOP` with `[]`), otherwise the kind rule result stands. -/
def rutaGuard (f : Bool) (e : Expr) (x : List Expr) : List Expr :=
  if rutaPred f e then [] else x

mutual
/-- Kind-specific recursion of `_expr_map` for `remove_unnamed_trivial_axes`.
The flag `f` is `is_concat_child` of the node itself: children of a `List` or
`Composition` are not concat children, children of a `Concatenation` are, and
the inner of a `Marker` inherits the marker's own flag. -/
def rutaKind (f : Bool) : Expr → List Expr
  | .axis n v => [.axis n v]
  | .list cs => rutaLs cs
  | .concat cs => [.concat (rutaCs cs)]
  | .comp i => [.comp (listMaybe (rutaGuard false i (rutaKind false i)))]
  | .marker i =>
      let x := rutaGuard f i (rutaKind f i)
      if x.isEmpty then [] else [.marker (listMaybe x)]

def rutaLs : List Expr → List Expr
  | [] => []
  | c :: cs => rutaGuard false c (rutaKind false c) ++ rutaLs cs

def rutaCs : List Expr → List Expr
  | [] => []
  | c :: cs => emptyToAxis1 (listMaybe (rutaGuard true c (rutaKind true c))) :: rutaCs cs
end

/-- `_expr_map` visit for `remove_unnamed_trivial_axes`: predicate first, then
the kind rule. -/
def rutaVisit (f : Bool) (e : Expr) : List Expr := rutaGuard f e (rutaKind f e)

/-- `remove_unnamed_trivial_axes(expr)`. -/
def removeUnnamedTrivialAxes (e : Expr) : Expr := listMaybe (rutaVisit false e)

/-- The visitor step of `mark`: a node that is not a `Marker`, whose immediate
parent is not a `Marker` (`pm`), and that matches `p`, is wrapped in a fresh
`Marker` around its deep copy with `REPLACE_AND_CONTINUE`; the engine then
processes that `Marker` (skipped by the guard) via the marker kind rule, whose
inner result is `x`. -/
def markGuard (p : Expr → Bool) (pm : Bool) (e : Expr) (x : List Expr) : List Expr :=
  if !isMarkerB e && !pm && p e then
    if x.isEmpty then [] else [.marker (listMaybe x)]
  else x

mutual
/-- Kind-specific recursion of `_expr_map` for `mark`: children of `List`,
`Concatenation`, `Composition` are visited with parent-not-a-marker (`pm =
false`); the inner of a `Marker` with `pm = true`. -/
def markKind (p : Expr → Bool) : Expr → List Expr
  | .axis n v => [.axis n v]
  | .list cs => markLs p cs
  | .concat cs => [.concat (markCs p cs)]
  | .comp i => [.comp (listMaybe (markGuard p false i (markKind p i)))]
  | .marker i =>
      let x := markGuard p true i (markKind p i)
      if x.isEmpty then [] else [.marker (listMaybe x)]

def markLs (p : Expr → Bool) : List Expr → List Expr
  | [] => []
  | c :: cs => markGuard p false c (markKind p c) ++ markLs p cs

def markCs (p : Expr → Bool) : List Expr → List Expr
  | [] => []
  | c :: cs => emptyToAxis1 (listMaybe (markGuard p false c (markKind p c))) :: markCs p cs
end

/-- `_expr_map` visit for `mark`. -/
def markVisit (p : Expr → Bool) (pm : Bool) (e : Expr) : List Expr :=
  markGuard p pm e (markKind p e)

/-- `mark(expr, pred)`. -/
def mark (p : Expr → Bool) (e : Expr) : Expr := listMaybe (markVisit p false e)

/-- The `remove` visitor step for `get_unmarked`: the code removes every node
for which `not is_marked(expr)` holds; `mk` is `is_marked` of the node's parent
chain (true when some ancestor is a `Marker`). -/
def guGuard (mk : Bool) (e : Expr) (x : List Expr) : List Expr :=
  if !mk && !isMarkerB e then [] else x

mutual
/-- Kind-specific recursion of `_expr_map` for `get_unmarked`; the ancestor
flag is inherited by all children and set for the inner of a `Marker`. -/
def guKind (mk : Bool) : Expr → List Expr
  | .axis n v => [.axis n v]
  | .list cs => guLs mk cs
  | .concat cs => [.concat (guCs mk cs)]
  | .comp i => [.comp (listMaybe (guGuard mk i (guKind mk i)))]
  | .marker i =>
      let x := guGuard true i (guKind true i)
      if x.isEmpty then [] else [.marker (listMaybe x)]

def guLs (mk : Bool) : List Expr → List Expr
  | [] => []
  | c :: cs => guGuard mk c (guKind mk c) ++ guLs mk cs

def guCs (mk : Bool) : List Expr → List Expr
  | [] => []
  | c :: cs => emptyToAxis1 (listMaybe (guGuard mk c (guKind mk c))) :: guCs mk cs
end

/-- `get_unmarked(expr) = remove(expr, lambda expr: not is_marked(expr))`. -/
def getUnmarked (e : Expr) : Expr := listMaybe (guGuard false e (guKind false e))

mutual
/-- `_get_marked`: an `Axis` contributes nothing, a `Marker` contributes its
inner (deep copy), `Concatenation`/`List`/`Composition` rebuild over the
spliced child results with `Concatenation.maybe` / `List.maybe`. -/
def getMarkedL : Expr → Except String (List Expr)
  | .axis _ _ => .ok []
  | .marker i => .ok [i]
  | .concat cs => do
      let xs ← getMarkedJ cs
      let c ← concatMaybeE xs
      return [c]
  | .comp i => do
      let xs ← getMarkedL i
      let l ← listMaybeE xs
      return [.comp l]
  | .list cs => do
      let xs ← getMarkedJ cs
      let l ← listMaybeE xs
      return [l]

def getMarkedJ : List Expr → Except String (List Expr)
  | [] => .ok []
  | c :: cs => do
      let x ← getMarkedL c
      let r ← getMarkedJ cs
      return x ++ r
end

/-- `get_marked(expr) = List.maybe(_get_marked(expr))`. -/
def getMarked (e : Expr) : Except String Expr := do
  let xs ← getMarkedL e
  listMaybeE xs

mutual
/-- `get_axes(expr)`: all `Axis` nodes of the pre-order traversal `all()`. -/
def getAxes : Expr → List Expr
  | .axis n v => [.axis n v]
  | .list cs => getAxesL cs
  | .concat cs => getAxesL cs
  | .comp i => getAxes i
  | .marker i => getAxes i

def getAxesL : List Expr → List Expr
  | [] => []
  | c :: cs => getAxes c ++ getAxesL cs
end

/-- Modelled from the spec: the stage2 *symbolic* tree consumed by `solve`.
The module `einx.expr.stage2` is not part of the sources; per §3/§6 of the
spec it mirrors the concrete tree, with `NamedAxis(name)` and
`UnnamedAxis(knownValue)` leaves.  Node identity (`id(expr)` in the code, used
as the solver-variable key and the key of the resolved-value mapping) is
modelled as an explicit `id` field on every node, per the spec's design note
that integer indices are the natural identity key. -/
inductive SExpr where
  | namedAxis (id : Nat) (name : String)
  | unnamedAxis (id : Nat) (value : Int)
  | slist (id : Nat) (children : List SExpr)
  | sconcat (id : Nat) (children : List SExpr)
  | smarker (id : Nat) (inner : SExpr)
  | scomp (id : Nat) (inner : SExpr)

/-- The identity of a symbolic node. -/
def sid : SExpr → Nat
  | .namedAxis i _ => i
  | .unnamedAxis i _ => i
  | .slist i _ => i
  | .sconcat i _ => i
  | .smarker i _ => i
  | .scomp i _ => i

mutual
/-- Modelled from the spec: `__len__` of a symbolic root — the number of
iteration positions (leaf count in the sense of §4.1: `Composition` and
`Concatenation` span one position, a `Marker` is transparent). -/
def SExpr.len : SExpr → Nat
  | .namedAxis _ _ => 1
  | .unnamedAxis _ _ => 1
  | .slist _ cs => sLenL cs
  | .sconcat _ _ => 1
  | .scomp _ _ => 1
  | .smarker _ i => i.len

def sLenL : List SExpr → Nat
  | [] => 0
  | c :: cs => c.len + sLenL cs
end

mutual
/-- Modelled from the spec: `__iter__` of a symbolic root — the iteration
positions in order, zipped against a provided concrete shape. -/
def sIter : SExpr → List SExpr
  | .namedAxis i n => [.namedAxis i n]
  | .unnamedAxis i v => [.unnamedAxis i v]
  | .slist _ cs => sIterL cs
  | .sconcat i cs => [.sconcat i cs]
  | .scomp i x => [.scomp i x]
  | .smarker _ i => sIter i

def sIterL : List SExpr → List SExpr
  | [] => []
  | c :: cs => sIter c ++ sIterL cs
end

mutual
/-- All axis leaves (named and unnamed) of a symbolic tree, in the order of the
pre-order traversal `all()`. -/
def sAxes : SExpr → List SExpr
  | .namedAxis i n => [.namedAxis i n]
  | .unnamedAxis i v => [.unnamedAxis i v]
  | .slist _ cs => sAxesL cs
  | .sconcat _ cs => sAxesL cs
  | .smarker _ i => sAxes i
  | .scomp _ i => sAxes i

def sAxesL : List SExpr → List SExpr
  | [] => []
  | c :: cs => sAxes c ++ sAxesL cs
end

/-- Solver terms: per-node variables (keyed by node identity), per-name axis
variables, integer literals, and the sums/products built by the equation
builder (`solver.Variable`, `solver.Sum`, `solver.Product`). -/
inductive Term where
  | nodeVar (id : Nat)
  | axisVar (name : String)
  | lit (n : Int)
  | tsum (ts : List Term)
  | tprod (ts : List Term)

/-- The node variables of a list of children. -/
def childVars (cs : List SExpr) : List Term := cs.map (fun c => Term.nodeVar (sid c))

mutual
/-- The structural equations of `solve`: for a `List`,
`Product(child vars) == node var`; for a `Concatenation`,
`Sum(child vars) == node var`; for `Marker`/`Composition`,
`node var == inner var` — emitted along the pre-order traversal. -/
def structEqs : SExpr → List (Term × Term)
  | .namedAxis _ _ => []
  | .unnamedAxis _ _ => []
  | .slist i cs => (Term.tprod (childVars cs), Term.nodeVar i) :: structEqsL cs
  | .sconcat i cs => (Term.tsum (childVars cs), Term.nodeVar i) :: structEqsL cs
  | .smarker i inner => (Term.nodeVar i, Term.nodeVar (sid inner)) :: structEqs inner
  | .scomp i inner => (Term.nodeVar i, Term.nodeVar (sid inner)) :: structEqs inner

def structEqsL : List SExpr → List (Term × Term)
  | [] => []
  | c :: cs => structEqs c ++ structEqsL cs
end

/-- The root-value equations of one root: with a provided concrete shape the
code first runs `assert len(value) == len(root)` (an `AssertionError`, modelled
as `Except.error`), then equates each iteration position's variable with the
corresponding provided integer. -/
def rootEqs (root : SExpr) (shape : Option (List Int)) : Except Unit (List (Term × Term)) :=
  match shape with
  | none => .ok []
  | some vals =>
      if vals.length = root.len then
        .ok (((sIter root).zip vals).map (fun p => (Term.nodeVar (sid p.1), Term.lit p.2)))
      else .error ()

/-- The root-value equations across all roots, in order; the first failing
assertion aborts. -/
def rootEqsAll : List SExpr → List (Option (List Int)) → Except Unit (List (Term × Term))
  | [], _ => .ok []
  | _, [] => .ok []
  | r :: rs, v :: vs => do
      let e1 ← rootEqs r v
      let e2 ← rootEqsAll rs vs
      return e1 ++ e2

mutual
/-- The unnamed-axis equations: every `UnnamedAxis` equates its node variable
with its known literal value. -/
def unnamedEqs : SExpr → List (Term × Term)
  | .namedAxis _ _ => []
  | .unnamedAxis i v => [(Term.nodeVar i, Term.lit v)]
  | .slist _ cs => unnamedEqsL cs
  | .sconcat _ cs => unnamedEqsL cs
  | .smarker _ i => unnamedEqs i
  | .scomp _ i => unnamedEqs i

def unnamedEqsL : List SExpr → List (Term × Term)
  | [] => []
  | c :: cs => unnamedEqs c ++ unnamedEqsL cs
end

mutual
/-- The named-axis identity equations: every `NamedAxis` occurrence equates its
node variable with the per-name axis variable. -/
def namedEqs : SExpr → List (Term × Term)
  | .namedAxis i n => [(Term.nodeVar i, Term.axisVar n)]
  | .unnamedAxis _ _ => []
  | .slist _ cs => namedEqsL cs
  | .sconcat _ cs => namedEqsL cs
  | .smarker _ i => namedEqs i
  | .scomp _ i => namedEqs i

def namedEqsL : List SExpr → List (Term × Term)
  | [] => []
  | c :: cs => namedEqs c ++ namedEqsL cs
end

/-- The full equation list of `solve`, phases in source order. -/
def allEqs (exprs : List SExpr) (eqs2 : List (Term × Term)) : List (Term × Term) :=
  (exprs.map structEqs).flatten ++ eqs2 ++ (exprs.map unnamedEqs).flatten
    ++ (exprs.map namedEqs).flatten

/-- A solver result assigns integers to variables: node variables (`.inl id`)
and named-axis variables (`.inr name`). -/
def SolverResult := List ((Nat ⊕ String) × Int)

/-- Line 281 of the source: keep only node-variable entries (named-axis
variables are excluded from the final axis-value answer) and key them by the
integer node identity. -/
def filterNodeVals (res : SolverResult) : List (Nat × Int) :=
  res.filterMap (fun p => match p.1 with
    | .inl i => some (i, p.2)
    | .inr _ => none)

/-- Lookup of a node's resolved value. -/
def lookupId (m : List (Nat × Int)) (i : Nat) : Option Int := m.lookup i

mutual
/-- The unresolved named axes of the post-solve check, in traversal order:
`str(expr)` of every `NamedAxis` whose identity is not in the resolved map
(`str` of a named axis is its name). -/
def collectFailed (m : List (Nat × Int)) : SExpr → List String
  | .namedAxis i n => if (lookupId m i).isNone then [n] else []
  | .unnamedAxis _ _ => []
  | .slist _ cs => collectFailedL m cs
  | .sconcat _ cs => collectFailedL m cs
  | .smarker _ i => collectFailed m i
  | .scomp _ i => collectFailed m i

def collectFailedL (m : List ( Nat × Int)) : List SExpr → List String
  | [] => []
  | c :: cs => collectFailed m c ++ collectFailedL m cs
end

/-- The `failed_axes` set across all roots: the distinct unresolved named-axis
strings (a Python `set`, modelled as first-occurrence deduplication). -/
def failedAxesOf (roots : List SExpr) (m : List (Nat × Int)) : List String :=
  ((roots.map (collectFailed m)).flatten).dedup

/-- The failures of the stage2-to-stage3 mapping step: a missing resolved value
trips an `assert` (`AssertionError`); a resolved value `<= 0` raises the solve
failure naming the axis. -/
inductive MapErr where
  | assertFail
  | nonPositive (axis : String) (v : Int)

mutual
/-- The recursive `map` of `solve`: axes become `Axis` nodes carrying their
resolved values (an unnamed stage2 axis maps to `Axis(None, value)`, whose
stored name is `"unnamed."` plus a fresh identity — the stage2 node identity
serves as the model's fresh seed); inner nodes map structurally. -/
def mapExpr (m : List (Nat × Int)) : SExpr → Except MapErr Expr
  | .namedAxis i n =>
      match lookupId m i with
      | none => .error .assertFail
      | some v => if v ≤ 0 then .error (.nonPositive n v) else .ok (.axis n v)
  | .unnamedAxis i v0 =>
      match lookupId m i with
      | none => .error .assertFail
      | some v =>
          if v ≤ 0 then .error (.nonPositive (toString v0) v)
          else .ok (.axis ("unnamed." ++ toString i) v)
  | .slist _ cs => do
      let l ← mapExprL m cs
      return .list l
  | .sconcat _ cs => do
      let l ← mapExprL m cs
      return .concat l
  | .smarker _ i => do
      let x ← mapExpr m i
      return .marker x
  | .scomp _ i => do
      let x ← mapExpr m i
      return .comp x

def mapExprL (m : List (Nat × Int)) : List SExpr → Except MapErr (List Expr)
  | [] => .ok []
  | c :: cs => do
      let x ← mapExpr m c
      let r ← mapExprL m cs
      return x :: r
end

/-- The roots mapped in order; the first failure aborts. -/
def mapRoots (m : List (Nat × Int)) : List SExpr → Except MapErr (List Expr)
  | [] => .ok []
  | r :: rs => do
      let x ← mapExpr m r
      let l ← mapRoots m rs
      return x :: l

/-- The distinct shapes of the single `SolveValueException` class: the wrapped
solver error, the singular and plural no-unique-solution messages, and the
non-positive-axis message. -/
inductive FailMsg where
  | solverErr
  | noUniqueSingle (axis : String)
  | noUniqueMulti (axes : List String)
  | nonPositive (axis : String) (v : Int)

/-- The observable outcome of `solve`: the resolved roots, a
`SolveValueException` (the solve-failure error class), an `AssertionError`
from a failed `assert`, or the up-front `ValueError` on mismatched argument
counts. -/
inductive SolveOutcome where
  | ok (roots : List Expr)
  | solveFailure (msg : FailMsg)
  | assertionError
  | valueError

def isSolveFailureB : SolveOutcome → Bool
  | .solveFailure _ => true
  | _ => false

/-- Lines 283–318 of the source, the phase after the constraint solver
returns: collect the unresolved named axes; one failed axis raises the
singular message, several raise the plural message; otherwise map the roots,
where a missing value is an assertion failure and a value `<= 0` raises the
solve failure. -/
def solveTail (roots : List SExpr) (m : List (Nat × Int)) : SolveOutcome :=
  match failedAxesOf roots m with
  | [a] => .solveFailure (.noUniqueSingle a)
  | [] =>
      match mapRoots m roots with
      | .ok rs => .ok rs
      | .error .assertFail => .assertionError
      | .error (.nonPositive a v) => .solveFailure (.nonPositive a v)
  | l => .solveFailure (.noUniqueMulti l)

/-- `solve(expressions, values)` with the constraint solver abstracted as the
function argument `solverFn` (the module `einx.expr.solver` is not part of the
sources; per §4.2 of the spec it returns a partial variable assignment or
fails, and a failure is wrapped into the solve-failure error). -/
def solve (solverFn : List (Term × Term) → Except Unit SolverResult)
    (exprs : List SExpr) (vals : List (Option (List Int))) : SolveOutcome :=
  if exprs.length ≠ vals.length then .valueError
  else
    match rootEqsAll exprs vals with
    | .error _ => .assertionError
    | .ok eqs2 =>
        match solverFn (allEqs exprs eqs2) with
        | .error _ => .solveFailure .solverErr
        | .ok res => solveTail exprs (filterNodeVals res)

mutual
/-- Characterization used for C8: `noBadTrivial f e = true` says that every
unnamed axis of value 1 inside `e` sits in a position exempted by
`remove_unnamed_trivial_axes` — a direct or marker-wrapped-direct child of a
`Concatenation`; the flag `f` says whether `e` itself sits in such a
position. -/
def noBadTrivial (f : Bool) : Expr → Bool
  | .axis n v => !(isUnnamed n && v == 1) || f
  | .list _cs => noBadL _cs
  | .concat cs => noBadC cs
  | .comp i => noBadTrivial false i
  | .marker i => noBadTrivial f i

def noBadL : List Expr → Bool
  | [] => true
  | c :: cs => noBadTrivial false c && noBadL cs

def noBadC : List Expr → Bool
  | [] => true
  | c :: cs => noBadTrivial true c && noBadC cs
end

mutual
/-- Constructor-enforced well-formedness of a concrete tree: every node is
buildable by the checked constructors (`List` children are never `List`,
`Concatenation` children have length 1 and there is at least one, a `Marker`
inner has nonzero length). -/
def wf : Expr → Bool
  | .axis _ _ => true
  | .list cs => wfLKids cs
  | .concat cs => !cs.isEmpty && wfCKids cs
  | .comp i => wf i
  | .marker i => (i.len != 0) && wf i

def wfLKids : List Expr → Bool
  | [] => true
  | c :: cs => !isList c && wf c && wfLKids cs

def wfCKids : List Expr → Bool
  | [] => true
  | c :: cs => (c.len == 1) && wf c && wfCKids cs
end

mutual
/-- No `List` node with exactly one child anywhere (the normal form maintained
by `List.maybe`, which never builds singleton lists). -/
def normalB : Expr → Bool
  | .axis _ _ => true
  | .list cs => (cs.length != 1) && normalL cs
  | .concat cs => normalL cs
  | .comp i => normalB i
  | .marker i => normalB i

def normalL : List Expr → Bool
  | [] => true
  | c :: cs => normalB c && normalL cs
end

mutual
/-- No `Marker` node anywhere in the tree. -/
def noMarkerB : Expr → Bool
  | .axis _ _ => true
  | .list cs => noMarkerL cs
  | .concat cs => noMarkerL cs
  | .comp i => noMarkerB i
  | .marker _ => false

def noMarkerL : List Expr → Bool
  | [] => true
  | c :: cs => noMarkerB c && noMarkerL cs
end

mutual
/-- No nested `Marker`: no `Marker` node lies inside another `Marker`.  The
flag records whether the current node already lies inside a `Marker`. -/
def noNestedB (f : Bool) : Expr → Bool
  | .axis _ _ => true
  | .list cs => noNestedL f cs
  | .concat cs => noNestedL f cs
  | .comp i => noNestedB f i
  | .marker i => !f && noNestedB true i

def noNestedL (f : Bool) : List Expr → Bool
  | [] => true
  | c :: cs => noNestedB f c && noNestedL f cs
end

mutual
/-- Follows the spec's words, for comparison with `mark`: wrap every node
matching the predicate in a fresh `Marker`, on marker-free trees and
axis-only predicates (so only axis leaves are wrapped and the tree shape is
otherwise preserved). -/
def wrapAxes (p : Expr → Bool) : Expr → Expr
  | .axis n v => if p (.axis n v) then .marker (.axis n v) else .axis n v
  | .list cs => .list (wrapAxesL p cs)
  | .concat cs => .concat (wrapAxesL p cs)
  | .comp i => .comp (wrapAxes p i)
  | .marker i => .marker i

def wrapAxesL (p : Expr → Bool) : List Expr → List Expr
  | [] => []
  | c :: cs => wrapAxes p c :: wrapAxesL p cs
end

def isNamedS : SExpr → Bool
  | .namedAxis _ _ => true
  | _ => false

/-- A leaf axis has a resolved value. -/
def axisResolved (m : List (Nat × Int)) (a : SExpr) : Bool := (lookupId m (sid a)).isSome

/-- A leaf axis has a resolved, strictly positive value. -/
def axisResolvedPos (m : List (Nat × Int)) (a : SExpr) : Bool :=
  match lookupId m (sid a) with
  | some v => decide (0 < v)
  | none => false

/-- A leaf axis has a resolved value that is `<= 0`. -/
def axisNonPositive (m : List (Nat × Int)) (a : SExpr) : Bool :=
  match lookupId m (sid a) with
  | some v => decide (v ≤ 0)
  | none => false

/-- Every unnamed leaf axis across the roots has a resolved value (the solver
pins every `UnnamedAxis` through its literal equation, per §4.2 of the spec). -/
def unnamedResolvedB (roots : List SExpr) (m : List (Nat × Int)) : Bool :=
  roots.all (fun r => (sAxes r).all (fun a => isNamedS a || axisResolved m a))

/-- Every leaf axis across the roots is resolved and strictly positive. -/
def leavesPositiveB (roots : List SExpr) (m : List (Nat × Int)) : Bool :=
  roots.all (fun r => (sAxes r).all (axisResolvedPos m))

/-- Some leaf axis across the roots has a resolved value `<= 0`. -/
def someNonPositiveB (roots : List SExpr) (m : List (Nat × Int)) : Bool :=
  roots.any (fun r => (sAxes r).any (axisNonPositive m))

theorem toInt64_eq_self {n : Int} (h1 : -(2 ^ 63) ≤ n) (h2 : n < 2 ^ 63) : toInt64 n = n := by
  unfold toInt64
  omega

theorem toInt32_eq_self {n : Int} (h1 : -(2 ^ 31) ≤ n) (h2 : n < 2 ^ 31) : toInt32 n = n := by
  unfold toInt32
  omega

/-- C1 counterexample: a `Concatenation` of two axes of value `2^30` stores
`-2^31` (the 32-bit wrap of `2^31`), not the sum of its children's values. -/
theorem C1_counterexample :
    Expr.value (.concat [.axis "a" (2 ^ 30), .axis "b" (2 ^ 30)])
      ≠ sumValues [.axis "a" (2 ^ 30), .axis "b" (2 ^ 30)] := by
  decide

/-- C1 (amended): the stored `value` of a `List` equals the product of its
children's values whenever that product fits in a signed 64-bit integer, and
the stored `value` of a `Concatenation` equals the sum of its children's
values whenever that sum fits in a signed 32-bit integer; outside those ranges
the stored value is the width-reduced product/sum. -/
theorem C1_list_product_concat_sum :
    (∀ cs : List Expr, -(2 ^ 63) ≤ prodValues cs → prodValues cs < 2 ^ 63 →
        Expr.value (.list cs) = prodValues cs)
  ∧ (∀ cs : List Expr, -(2 ^ 31) ≤ sumValues cs → sumValues cs < 2 ^ 31 →
        Expr.value (.concat cs) = sumValues cs) := by
  constructor
  · intro cs h1 h2
    show toInt64 (prodValues cs) = prodValues cs
    exact toInt64_eq_self h1 h2
  · intro cs h1 h2
    show toInt32 (toInt64 (sumValues cs)) = sumValues cs
    rw [toInt64_eq_self (by omega) (by omega)]
    exact toInt32_eq_self h1 h2

/-- C1 witness: the amended statement at concrete small trees. -/
theorem C1_list_product_concat_sum_witness :
    Expr.value (.list [.axis "a" 2, .axis "b" 3]) = prodValues [.axis "a" 2, .axis "b" 3]
  ∧ Expr.value (.concat [.axis "a" 2, .axis "b" 3]) = sumValues [.axis "a" 2, .axis "b" 3] :=
  ⟨C1_list_product_concat_sum.1 [.axis "a" 2, .axis "b" 3] (by decide) (by decide),
   C1_list_product_concat_sum.2 [.axis "a" 2, .axis "b" 3] (by decide) (by decide)⟩

/-- C2: for axis nodes, `__eq__` is: value equality for two unnamed axes, name
and value equality for two named axes, never across the named/unnamed split;
and equal axes have identical `__hash__` for any hash functions on names and
values. -/
theorem C2_axis_equality (n1 n2 : String) (v1 v2 : Int) (hs : String → Int) (hi : Int → Int) :
    (isUnnamed n1 = true → isUnnamed n2 = true →
      (Expr.eqb (.axis n1 v1) (.axis n2 v2) = true ↔ v1 = v2))
  ∧ (isUnnamed n1 = false → isUnnamed n2 = false →
      (Expr.eqb (.axis n1 v1) (.axis n2 v2) = true ↔ (n1 = n2 ∧ v1 = v2)))
  ∧ (isUnnamed n1 ≠ isUnnamed n2 → Expr.eqb (.axis n1 v1) (.axis n2 v2) = false)
  ∧ (Expr.eqb (.axis n1 v1) (.axis n2 v2) = true →
      axisHash hs hi n1 v1 = axisHash hs hi n2 v2) := by
  refine ⟨?_, ?_, ?_, ?_⟩
  · intro h1 h2
    simp [Expr.eqb, h1, h2]
  · intro h1 h2
    simp [Expr.eqb, h1, h2]
    tauto
  · intro h
    simp [Expr.eqb]
    intro hne
    exact absurd (by simpa using hne) h
  · intro h
    by_cases hu : isUnnamed n1 = isUnnamed n2
    · by_cases h1 : isUnnamed n1 = true
      · have h2 : isUnnamed n2 = true := by rw [← hu, h1]
        have hv : v1 = v2 := by simpa [Expr.eqb, h1, h2] using h
        simp [axisHash, h1, h2, hv]
      · have h1' : isUnnamed n1 = false := by simpa using h1
        have h2 : isUnnamed n2 = false := by rw [← hu, h1']
        have hv : v1 = v2 ∧ n1 = n2 := by simpa [Expr.eqb, h1', h2] using h
        simp [axisHash, h1', h2, hv.1, hv.2]
    · exfalso
      have : Expr.eqb (.axis n1 v1) (.axis n2 v2) = false := by
        simp [Expr.eqb]
        intro hne
        exact absurd (by simpa using hne) hu
      rw [this] at h
      exact Bool.false_ne_true h

/-- C2 witness: two distinct named axes `"a"` of value 4 are equal and hash
identically; the unnamed axis of value 4 is not equal to the named one. -/
theorem C2_axis_equality_witness :
    Expr.eqb (.axis "a" 4) (.axis "a" 4) = true
  ∧ Expr.eqb (.axis "unnamed.0" 4) (.axis "a" 4) = false
  ∧ axisHash (fun _ => 7) (fun v => v) "a" 4 = axisHash (fun _ => 7) (fun v => v) "a" 4 := by
  refine ⟨?_, ?_, ?_⟩
  · exact ((C2_axis_equality "a" "a" 4 4 (fun _ => 7) (fun v => v)).2.1 (by decide)
      (by decide)).mpr ⟨rfl, rfl⟩
  · exact (C2_axis_equality "unnamed.0" "a" 4 4 (fun _ => 7) (fun v => v)).2.2.1 (by decide)
  · exact (C2_axis_equality "a" "a" 4 4 (fun _ => 7) (fun v => v)).2.2.2
      (((C2_axis_equality "a" "a" 4 4 (fun _ => 7) (fun v => v)).2.1 (by decide)
        (by decide)).mpr ⟨rfl, rfl⟩)

theorem rootEqsAll_error (exprs : List SExpr) :
    ∀ (vals : List (Option (List Int))) (i : Nat) (root : SExpr) (shape : List Int),
    exprs.get? i = some root → vals.get? i = some (some shape) → shape.length ≠ root.len →
    rootEqsAll exprs vals = .error () := by
  induction exprs with
  | nil =>
      intro vals i root shape h1 _ _
      simp at h1
  | cons r rs ih =>
      intro vals i root shape h1 h2 h3
      cases vals with
      | nil => simp at h2
      | cons v vs =>
          cases i with
          | zero =>
              simp at h1 h2
              subst h1
              subst h2
              simp only [rootEqsAll, rootEqs, if_neg h3]
              rfl
          | succ i =>
              simp only [List.get?] at h1 h2
              have htail := ih vs i root shape h1 h2 h3
              simp only [rootEqsAll, htail]
              cases hr : rootEqs r v with
              | error u => rfl
              | ok e1 => rfl

/-- C4 counterexample: `solve` on a root of leaf count 1 with a provided shape
of length 2 raises an `AssertionError` (`assert len(value) == len(root)`), not
the `SolveValueException` solve-failure class (shown for one concrete solver
function; the assertion precedes the solver call). -/
theorem C4_counterexample :
    solve (fun _ => .ok []) [.namedAxis 0 "a"] [some [2, 3]] = .assertionError
  ∧ isSolveFailureB (solve (fun _ => .ok []) [.namedAxis 0 "a"] [some [2, 3]]) = false :=
  ⟨rfl, rfl⟩

/-- C4 (amended): a shape-length mismatch between a provided concrete shape
and its root's leaf count makes `solve` fail immediately with an
`AssertionError` — a distinct error class from the solve failure — before the
constraint solver is ever consulted (the result does not depend on the solver
function). -/
theorem C4_shape_length_mismatch
    (solverFn : List (Term × Term) → Except Unit SolverResult)
    (exprs : List SExpr) (vals : List (Option (List Int)))
    (i : Nat) (root : SExpr) (shape : List Int)
    (hlen : exprs.length = vals.length)
    (h1 : exprs.get? i = some root) (h2 : vals.get? i = some (some shape))
    (h3 : shape.length ≠ root.len) :
    solve solverFn exprs vals = .assertionError := by
  unfold solve
  rw [if_neg (by omega), rootEqsAll_error exprs vals i root shape h1 h2 h3]

/-- C4 witness: the amended statement at the concrete mismatching input. -/
theorem C4_shape_length_mismatch_witness :
    solve (fun _ => .ok []) [.namedAxis 0 "a"] [some [2, 3]] = .assertionError :=
  C4_shape_length_mismatch (fun _ => .ok []) [.namedAxis 0 "a"] [some [2, 3]]
    0 (.namedAxis 0 "a") [2, 3] rfl rfl rfl (by decide)

/-- C5: the construction-time invariants are enforced by the constructors
themselves: a `List` with a direct `List` child, a `Concatenation` with zero
children, a `Concatenation` with a child of length other than 1, and a
`Marker` with an empty (length-0) inner expression each fail at construction
time. -/
theorem C5_construction_errors :
    (∀ (cs : List Expr) (c : Expr), c ∈ cs → isList c = true → ∃ m, mkList cs = .error m)
  ∧ (∃ m, mkConcat ([] : List Expr) = .error m)
  ∧ (∀ (cs : List Expr) (c : Expr), c ∈ cs → c.len ≠ 1 → ∃ m, mkConcat cs = .error m)
  ∧ (∀ i : Expr, i.len = 0 → ∃ m, mkMarker i = .error m) := by
  refine ⟨?_, ⟨_, rfl⟩, ?_, ?_⟩
  · intro cs c hmem hc
    have hany : cs.any isList = true := List.any_eq_true.mpr ⟨c, hmem, hc⟩
    exact ⟨"List cannot have another List as direct child", by simp [mkList, hany]⟩
  · intro cs c hmem hc
    have hne : cs.isEmpty = false := by
      cases cs with
      | nil => simp at hmem
      | cons a l => rfl
    have hany : cs.any (fun c => c.len != 1) = true :=
      List.any_eq_true.mpr ⟨c, hmem, by simpa using hc⟩
    exact ⟨"Concatenation can only be used on expressions of length 1",
      by simp [mkConcat, hne, hany]⟩
  · intro i hi
    exact ⟨"Marker cannot have empty list as child", by simp [mkMarker, hi]⟩

/-- C5 witness: the construction errors at concrete inputs. -/
theorem C5_construction_errors_witness :
    (∃ m, mkList [Expr.list []] = .error m)
  ∧ (∃ m, mkConcat ([] : List Expr) = .error m)
  ∧ (∃ m, mkConcat [Expr.list []] = .error m)
  ∧ (∃ m, mkMarker (Expr.list []) = .error m) :=
  ⟨C5_construction_errors.1 [Expr.list []] (Expr.list []) (by simp) rfl,
   C5_construction_errors.2.1,
   C5_construction_errors.2.2.1 [Expr.list []] (Expr.list []) (by simp) (by decide),
   C5_construction_errors.2.2.2 (Expr.list []) rfl⟩

/-- C7: evaluation of the code at the failing input
`t = List [Axis "a" 2, Marker (Axis "b" 3)]`: `get_unmarked` removes the
unmarked root with `REPLACE_AND_STOP` (its predicate is
`not is_marked(expr)`), so it returns an empty `List` and the unmarked leaf
`a` appears in neither `get_marked(t)` nor `get_unmarked(t)` — the leaves of
the two extractions do not cover the leaves of `t`. -/
theorem C7_partition_fails_eval :
    getUnmarked (.list [.axis "a" 2, .marker (.axis "b" 3)]) = Expr.list []
  ∧ getMarked (.list [.axis "a" 2, .marker (.axis "b" 3)]) = .ok (.axis "b" 3)
  ∧ getAxes (.list [.axis "a" 2, .marker (.axis "b" 3)]) = [.axis "a" 2, .axis "b" 3]
  ∧ getAxes (Expr.list []) ++ getAxes (.axis "b" 3) = [.axis "b" 3] :=
  ⟨rfl, rfl, rfl, rfl⟩

/-- C10: the stored value of a `Concatenation` is the children's sum reduced
to signed 32 bits: whenever the mathematical sum is at least `2^31` the
stored value differs from the true sum and is congruent to it modulo `2^32`;
concretely two children of value `2^30` store `-2^31`; a `List`, by contrast,
reduces its product at 64-bit width, so a product of `2^31` is stored
exactly. -/
theorem C10_concat_int32_wrap :
    (∀ cs : List Expr, 2 ^ 31 ≤ sumValues cs →
        Expr.value (.concat cs) ≠ sumValues cs
      ∧ (sumValues cs - Expr.value (.concat cs)) % 2 ^ 32 = 0)
  ∧ Expr.value (.concat [.axis "a" (2 ^ 30), .axis "b" (2 ^ 30)]) = -(2 ^ 31)
  ∧ Expr.value (.list [.axis "a" (2 ^ 30), .axis "b" 2]) = 2 ^ 31 := by
  refine ⟨?_, by decide, by decide⟩
  intro cs h
  have hv : Expr.value (.concat cs) = toInt32 (toInt64 (sumValues cs)) := rfl
  rw [hv]
  unfold toInt32 toInt64
  omega

/-- C10 witness: the general wrap statement at the concrete overflowing
concatenation. -/
theorem C10_concat_int32_wrap_witness :
    Expr.value (.concat [.axis "a" (2 ^ 30), .axis "b" (2 ^ 30)])
      ≠ sumValues [.axis "a" (2 ^ 30), .axis "b" (2 ^ 30)] :=
  (C10_concat_int32_wrap.1 [.axis "a" (2 ^ 30), .axis "b" (2 ^ 30)] (by decide)).1

theorem demarkLs_of_elems (l : List Expr) (h : ∀ x ∈ l, demarkL x = [x]) :
    demarkLs l = l := by
  induction l with
  | nil => rfl
  | cons c cs ih =>
      simp only [demarkLs]
      rw [h c (by simp), ih (fun x hx => h x (by simp [hx]))]
      rfl

theorem demarkL_listMaybe (l : List Expr) (h : ∀ x ∈ l, demarkL x = [x]) :
    demarkL (listMaybe l) = l := by
  match l with
  | [] => rfl
  | [e] => exact h e (by simp)
  | a :: b :: t =>
      show demarkL (.list (a :: b :: t)) = a :: b :: t
      simp only [demarkL]
      exact demarkLs_of_elems _ h

mutual
theorem demark_elem : ∀ e : Expr, ∀ x ∈ demarkL e, demarkL x = [x]
  | .axis n v => by
      intro x hx
      simp only [demarkL, List.mem_singleton] at hx
      subst hx
      rfl
  | .list cs => by
      intro x hx
      exact demark_elemLs cs x hx
  | .concat cs => by
      intro x hx
      simp only [demarkL, List.mem_singleton] at hx
      subst hx
      simp only [demarkL, demark_idemCs cs]
  | .comp i => by
      intro x hx
      simp only [demarkL, List.mem_singleton] at hx
      subst hx
      simp only [demarkL, demarkL_listMaybe (demarkL i) (demark_elem i)]
  | .marker i => by
      intro x hx
      simp only [demarkL] at hx
      exact demark_elem i x hx

theorem demark_elemLs : ∀ l : List Expr, ∀ x ∈ demarkLs l, demarkL x = [x]
  | [] => by intro x hx; simp [demarkLs] at hx
  | c :: cs => by
      intro x hx
      simp only [demarkLs, List.mem_append] at hx
      cases hx with
      | inl h => exact demark_elem c x h
      | inr h => exact demark_elemLs cs x h

theorem demark_idemCs : ∀ l : List Expr, demarkCs (demarkCs l) = demarkCs l
  | [] => rfl
  | c :: cs => by
      simp only [demarkCs, demark_idemCs cs]
      congr 1
      by_cases h0 : (listMaybe (demarkL c)).len = 0
      · simp only [emptyToAxis1, h0, if_pos]
        rfl
      · simp only [emptyToAxis1, if_neg h0]
        rw [demarkL_listMaybe (demarkL c) (demark_elem c)]
        simp only [if_neg h0]
end

/-- C6: `demark` is idempotent — for every expression tree `t`,
`demark (demark t)` is structurally equal to `demark t`. -/
theorem C6_demark_idempotent (t : Expr) : demark (demark t) = demark t := by
  unfold demark
  rw [demarkL_listMaybe (demarkL t) (demark_elem t)]

theorem noBad_mono : ∀ e : Expr, noBadTrivial false e = true → noBadTrivial true e = true
  | .axis n v => by simp [noBadTrivial]
  | .list cs => by simp [noBadTrivial]
  | .concat cs => by simp [noBadTrivial]
  | .comp i => by simp [noBadTrivial]
  | .marker i => by
      simp only [noBadTrivial]
      exact noBad_mono i

theorem noBadL_iff (l : List Expr) :
    noBadL l = true ↔ ∀ x ∈ l, noBadTrivial false x = true := by
  induction l with
  | nil => simp [noBadL]
  | cons c cs ih => simp [noBadL, ih]

theorem noBadC_iff (l : List Expr) :
    noBadC l = true ↔ ∀ x ∈ l, noBadTrivial true x = true := by
  induction l with
  | nil => simp [noBadC]
  | cons c cs ih => simp [noBadC, ih]

theorem len_listMaybe (l : List Expr) : Expr.len (listMaybe l) = lenL l := by
  match l with
  | [] => rfl
  | [e] => show e.len = e.len + 0; omega
  | a :: b :: t => rfl

theorem lenL_pos (l : List Expr) (h : ∀ x ∈ l, 1 ≤ x.len) (hne : l ≠ []) :
    1 ≤ lenL l := by
  match l with
  | [] => exact absurd rfl hne
  | c :: cs =>
      have := h c (by simp)
      show 1 ≤ c.len + lenL cs
      omega

mutual
theorem ruta_good : ∀ e : Expr, ∀ f : Bool,
    (∀ x ∈ rutaVisit f e, isList x = false ∧ 1 ≤ x.len ∧ noBadTrivial f x = true)
  ∧ (2 ≤ (rutaVisit f e).length → ∀ x ∈ rutaVisit f e, noBadTrivial false x = true)
  | .axis n v => by
      intro f
      have hg : rutaVisit f (.axis n v)
          = if rutaPred f (.axis n v) then [] else [.axis n v] := rfl
      rw [hg]
      by_cases hp : rutaPred f (.axis n v) = true
      · rw [if_pos hp]
        simp
      · rw [if_neg (by simpa using hp)]
        refine ⟨?_, by intro h2; simp at h2⟩
        intro x hx
        simp only [List.mem_singleton] at hx
        subst hx
        refine ⟨rfl, by simp [Expr.len], ?_⟩
        cases f with
        | true => simp [noBadTrivial]
        | false =>
            by_cases hu : isUnnamed n = true
            · have hv : ¬(v = 1) := by
                intro hv2
                exact hp (by simp [rutaPred, hu, hv2])
              simp [noBadTrivial, hv]
            · have hu' : isUnnamed n = false := by simpa using hu
              simp [noBadTrivial, hu']
  | .list cs => by
      intro f
      have hg : rutaVisit f (.list cs) = rutaLs cs := rfl
      rw [hg]
      refine ⟨?_, ?_⟩
      · intro x hx
        have h := ruta_goodLs cs x hx
        refine ⟨h.1, h.2.1, ?_⟩
        cases f with
        | false => exact h.2.2
        | true => exact noBad_mono x h.2.2
      · intro _ x hx
        exact (ruta_goodLs cs x hx).2.2
  | .concat cs => by
      intro f
      have hg : rutaVisit f (.concat cs) = [.concat (rutaCs cs)] := rfl
      rw [hg]
      refine ⟨?_, by intro h2; simp at h2⟩
      intro x hx
      simp only [List.mem_singleton] at hx
      subst hx
      refine ⟨rfl, by simp [Expr.len], ?_⟩
      show noBadC (rutaCs cs) = true
      exact (noBadC_iff _).mpr (fun y hy => (ruta_goodCs cs y hy).2)
  | .comp i => by
      intro f
      have hg : rutaVisit f (.comp i) = [.comp (listMaybe (rutaVisit false i))] := rfl
      rw [hg]
      refine ⟨?_, by intro h2; simp at h2⟩
      intro x hx
      simp only [List.mem_singleton] at hx
      subst hx
      refine ⟨rfl, by simp [Expr.len], ?_⟩
      show noBadTrivial false (listMaybe (rutaVisit false i)) = true
      have hi := ruta_good i false
      match hx : rutaVisit false i with
      | [] => rfl
      | [e] =>
          have he := (hi.1 e (by rw [hx]; simp)).2.2
          have hlm : listMaybe [e] = e := rfl
          rw [hlm]
          exact he
      | a :: b :: t =>
          have hlm : listMaybe (a :: b :: t) = .list (a :: b :: t) := rfl
          rw [hlm]
          show noBadL (a :: b :: t) = true
          refine (noBadL_iff _).mpr ?_
          intro y hy
          exact (hi.1 y (by rw [hx]; exact hy)).2.2
  | .marker i => by
      intro f
      have hg : rutaVisit f (.marker i)
          = (if (rutaVisit f i).isEmpty then []
             else [.marker (listMaybe (rutaVisit f i))]) := rfl
      rw [hg]
      have hi := ruta_good i f
      match hx : rutaVisit f i with
      | [] => simp
      | e :: t =>
          simp only [List.isEmpty_cons, Bool.false_eq_true, if_false]
          refine ⟨?_, by intro h2; simp at h2⟩
          intro x hmem
          simp only [List.mem_singleton] at hmem
          subst hmem
          have helems : ∀ y ∈ e :: t, isList y = false ∧ 1 ≤ y.len ∧
              noBadTrivial f y = true := by
            intro y hy
            exact hi.1 y (by rw [hx]; exact hy)
          refine ⟨rfl, ?_, ?_⟩
          · show 1 ≤ Expr.len (listMaybe (e :: t))
            rw [len_listMaybe]
            exact lenL_pos _ (fun y hy => (helems y hy).2.1) (by simp)
          · show noBadTrivial f (listMaybe (e :: t)) = true
            match t with
            | [] =>
                have hlm : listMaybe [e] = e := rfl
                rw [hlm]
                exact (helems e (by simp)).2.2
            | b :: t2 =>
                have hlm : listMaybe (e :: b :: t2) = .list (e :: b :: t2) := rfl
                rw [hlm]
                show noBadL (e :: b :: t2) = true
                refine (noBadL_iff _).mpr ?_
                intro y hy
                refine hi.2 ?_ y (by rw [hx]; exact hy)
                rw [hx]
                simp

theorem ruta_goodLs : ∀ l : List Expr, ∀ x ∈ rutaLs l,
    isList x = false ∧ 1 ≤ x.len ∧ noBadTrivial false x = true
  | [] => by intro x hx; simp [rutaLs] at hx
  | c :: cs => by
      intro x hx
      simp only [rutaLs, List.mem_append] at hx
      cases hx with
      | inl h => exact (ruta_good c false).1 x h
      | inr h => exact ruta_goodLs cs x h

theorem ruta_goodCs : ∀ l : List Expr, ∀ x ∈ rutaCs l,
    1 ≤ x.len ∧ noBadTrivial true x = true
  | [] => by intro x hx; simp [rutaCs] at hx
  | c :: cs => by
      intro x hx
      simp only [rutaCs, List.mem_cons] at hx
      cases hx with
      | inr h => exact ruta_goodCs cs x h
      | inl h =>
          subst h
          have hc := ruta_good c true
          show 1 ≤ (emptyToAxis1 (listMaybe (rutaVisit true c))).len ∧
              noBadTrivial true (emptyToAxis1 (listMaybe (rutaVisit true c))) = true
          match hx : rutaVisit true c with
          | [] => exact ⟨by decide, by decide⟩
          | [e] =>
              have he := hc.1 e (by rw [hx]; simp)
              have hlm : listMaybe [e] = e := rfl
              rw [hlm]
              have hnz : ¬(Expr.len e = 0) := by
                have := he.2.1
                omega
              unfold emptyToAxis1
              rw [if_neg hnz]
              exact ⟨he.2.1, he.2.2⟩
          | a :: b :: t =>
              have helems : ∀ y ∈ a :: b :: t, isList y = false ∧ 1 ≤ y.len ∧
                  noBadTrivial true y = true := by
                intro y hy
                exact hc.1 y (by rw [hx]; exact hy)
              have hlm : listMaybe (a :: b :: t) = .list (a :: b :: t) := rfl
              rw [hlm]
              have hlen : 1 ≤ Expr.len (.list (a :: b :: t)) := by
                show 1 ≤ lenL (a :: b :: t)
                exact lenL_pos _ (fun y hy => (helems y hy).2.1) (by simp)
              have hnz : ¬(Expr.len (.list (a :: b :: t)) = 0) := by omega
              unfold emptyToAxis1
              rw [if_neg hnz]
              refine ⟨hlen, ?_⟩
              show noBadL (a :: b :: t) = true
              refine (noBadL_iff _).mpr ?_
              intro y hy
              refine hc.2 ?_ y (by rw [hx]; exact hy)
              rw [hx]
              simp
end

/-- C8: `remove_unnamed_trivial_axes` never leaves an unnamed axis of value 1
outside a (marker-wrapped-)direct-child-of-`Concatenation` position, for any
input tree; on `"a 1 b"` it yields `"a b"`, and on `"a+1"` the value-1
concatenation child is preserved. -/
theorem C8_remove_unnamed_trivial_axes :
    (∀ t : Expr, noBadTrivial false (removeUnnamedTrivialAxes t) = true)
  ∧ removeUnnamedTrivialAxes (.list [.axis "a" 2, .axis "unnamed.0" 1, .axis "b" 3])
      = .list [.axis "a" 2, .axis "b" 3]
  ∧ removeUnnamedTrivialAxes (.concat [.axis "a" 2, .axis "unnamed.0" 1])
      = .concat [.axis "a" 2, .axis "unnamed.0" 1] := by
  refine ⟨?_, rfl, rfl⟩
  intro t
  have ht := ruta_good t false
  show noBadTrivial false (listMaybe (rutaVisit false t)) = true
  match hx : rutaVisit false t with
  | [] => rfl
  | [e] =>
      have he := (ht.1 e (by rw [hx]; simp)).2.2
      have hlm : listMaybe [e] = e := rfl
      rw [hlm]
      exact he
  | a :: b :: t2 =>
      have hlm : listMaybe (a :: b :: t2) = .list (a :: b :: t2) := rfl
      rw [hlm]
      show noBadL (a :: b :: t2) = true
      refine (noBadL_iff _).mpr ?_
      intro y hy
      exact (ht.1 y (by rw [hx]; exact hy)).2.2

mutual
theorem wrapAxes_len (p : Expr → Bool) : ∀ e : Expr, (wrapAxes p e).len = e.len
  | .axis n v => by
      by_cases hp : p (.axis n v) = true
      · simp [wrapAxes, hp, Expr.len]
      · simp [wrapAxes, hp, Expr.len]
  | .list cs => by
      show lenL (wrapAxesL p cs) = lenL cs
      exact wrapAxes_lenL p cs
  | .concat cs => by simp [wrapAxes, Expr.len]
  | .comp i => by simp [wrapAxes, Expr.len]
  | .marker i => by simp [wrapAxes, Expr.len]

theorem wrapAxes_lenL (p : Expr → Bool) : ∀ l : List Expr, lenL (wrapAxesL p l) = lenL l
  | [] => rfl
  | c :: cs => by
      show (wrapAxes p c).len + lenL (wrapAxesL p cs) = c.len + lenL cs
      rw [wrapAxes_len p c, wrapAxes_lenL p cs]
end

theorem wf_len_pos : ∀ e : Expr, wf e = true → isList e = false → 1 ≤ e.len
  | .axis _ _ => fun _ _ => by simp [Expr.len]
  | .list _ => fun _ h => by simp [isList] at h
  | .concat _ => fun _ _ => by simp [Expr.len]
  | .comp _ => fun _ _ => by simp [Expr.len]
  | .marker i => fun hw _ => by
      simp only [wf, Bool.and_eq_true, bne_iff_ne] at hw
      show 1 ≤ i.len
      omega

theorem lenL_ge_count (l : List Expr) (h : ∀ x ∈ l, 1 ≤ x.len) : l.length ≤ lenL l := by
  induction l with
  | nil => simp [lenL]
  | cons c cs ih =>
      have hc := h c (by simp)
      have := ih (fun x hx => h x (by simp [hx]))
      show (c :: cs).length ≤ c.len + lenL cs
      simp only [List.length_cons]
      omega

theorem wfLKids_iff (l : List Expr) :
    wfLKids l = true ↔ ∀ x ∈ l, isList x = false ∧ wf x = true := by
  induction l with
  | nil => simp [wfLKids]
  | cons c cs ih =>
      simp [wfLKids, ih]

theorem normalL_iff (l : List Expr) :
    normalL l = true ↔ ∀ x ∈ l, normalB x = true := by
  induction l with
  | nil => simp [normalL]
  | cons c cs ih => simp [normalL, ih]

theorem wf_list_len_ne_one (cs : List Expr) (hw : wf (.list cs) = true)
    (hn : normalB (.list cs) = true) : Expr.len (.list cs) ≠ 1 := by
  have hkids := (wfLKids_iff cs).mp (by simpa [wf] using hw)
  have hcount : cs.length ≠ 1 := by
    have := hn
    simp only [normalB, Bool.and_eq_true, bne_iff_ne] at this
    exact this.1
  have hpos : ∀ x ∈ cs, 1 ≤ x.len := by
    intro x hx
    exact wf_len_pos x (hkids x hx).2 (hkids x hx).1
  have hge := lenL_ge_count cs hpos
  show lenL cs ≠ 1
  match cs with
  | [] => simp [lenL]
  | [c] => simp at hcount
  | a :: b :: t =>
      have : 2 ≤ (a :: b :: t).length := by simp
      omega

theorem wrapAxesL_length (p : Expr → Bool) (l : List Expr) :
    (wrapAxesL p l).length = l.length := by
  induction l with
  | nil => rfl
  | cons c cs ih => simp [wrapAxesL, ih]

theorem listMaybe_of_ne_one (l : List Expr) (h : l.length ≠ 1) : listMaybe l = .list l := by
  match l with
  | [] => rfl
  | [e] => simp at h
  | a :: b :: t => rfl

theorem p_false_of_not_axis (p : Expr → Bool) (hp : ∀ e, p e = true → isAxisB e = true)
    (e : Expr) (he : isAxisB e = false) : p e = false := by
  cases h : p e with
  | false => rfl
  | true =>
      rw [hp e h] at he
      exact absurd he (by simp)

theorem markGuard_of_p_false (p : Expr → Bool) (e : Expr) (x : List Expr)
    (hpe : p e = false) : markGuard p false e x = x := by
  simp [markGuard, hpe]

theorem wfCKids_iff (l : List Expr) :
    wfCKids l = true ↔ ∀ x ∈ l, x.len = 1 ∧ wf x = true := by
  induction l with
  | nil => simp [wfCKids]
  | cons c cs ih => simp [wfCKids, ih]

theorem not_list_of_wf_len_one (c : Expr) (hw : wf c = true) (hn : normalB c = true)
    (hl : c.len = 1) : isList c = false := by
  cases c with
  | list cs => exact absurd hl (wf_list_len_ne_one cs hw hn)
  | axis n v => rfl
  | concat cs => rfl
  | comp i => rfl
  | marker i => rfl

mutual
theorem mark_visit_eq (p : Expr → Bool) (hp : ∀ e, p e = true → isAxisB e = true) :
    ∀ e : Expr, wf e = true → normalB e = true → noMarkerB e = true → isList e = false →
    markVisit p false e = [wrapAxes p e]
  | .axis n v => by
      intro _ _ _ _
      by_cases hpa : p (.axis n v) = true
      · show markGuard p false (.axis n v) [.axis n v] = [wrapAxes p (.axis n v)]
        simp [markGuard, hpa, isMarkerB, listMaybe, wrapAxes]
      · show markGuard p false (.axis n v) [.axis n v] = [wrapAxes p (.axis n v)]
        simp only [markGuard, isMarkerB, hpa]
        simp [wrapAxes, hpa]
  | .list cs => by
      intro _ _ _ hl
      simp [isList] at hl
  | .concat cs => by
      intro hw hn hm _
      have hpe : p (.concat cs) = false := p_false_of_not_axis p hp _ rfl
      show markGuard p false (.concat cs) [.concat (markCs p cs)] = [wrapAxes p (.concat cs)]
      rw [markGuard_of_p_false p _ _ hpe]
      have hkids : wfCKids cs = true := by
        simp only [wf, Bool.and_eq_true] at hw
        exact hw.2
      have hnl : normalL cs = true := by simpa [normalB] using hn
      have hml : noMarkerL cs = true := by simpa [noMarkerB] using hm
      rw [show markCs p cs = wrapAxesL p cs from mark_visitCs p hp cs hkids hnl hml]
      rfl
  | .comp i => by
      intro hw hn hm _
      have hpe : p (.comp i) = false := p_false_of_not_axis p hp _ rfl
      have hwi : wf i = true := by simpa [wf] using hw
      have hni : normalB i = true := by simpa [normalB] using hn
      have hmi : noMarkerB i = true := by simpa [noMarkerB] using hm
      show markGuard p false (.comp i) [.comp (listMaybe (markGuard p false i (markKind p i)))]
          = [wrapAxes p (.comp i)]
      rw [markGuard_of_p_false p _ _ hpe]
      by_cases hli : isList i = true
      · match i, hli with
        | .list cs, _ =>
            have hpl : p (.list cs) = false := p_false_of_not_axis p hp _ rfl
            have h1 : markGuard p false (.list cs) (markKind p (.list cs)) = markLs p cs := by
              rw [markGuard_of_p_false p _ _ hpl]
              rfl
            rw [h1]
            have hkids : wfLKids cs = true := by simpa [wf] using hwi
            have hcount : cs.length ≠ 1 := by
              simp only [normalB, Bool.and_eq_true, bne_iff_ne] at hni
              exact hni.1
            have hnl : normalL cs = true := by
              simp only [normalB, Bool.and_eq_true] at hni
              exact hni.2
            have hml : noMarkerL cs = true := by simpa [noMarkerB] using hmi
            rw [show markLs p cs = wrapAxesL p cs from mark_visitLs p hp cs hkids hnl hml]
            rw [listMaybe_of_ne_one _ (by rw [wrapAxesL_length]; exact hcount)]
            rfl
      · have hli' : isList i = false := by simpa using hli
        rw [show markGuard p false i (markKind p i) = markVisit p false i from rfl,
          mark_visit_eq p hp i hwi hni hmi hli']
        rfl
  | .marker i => by
      intro _ _ hm _
      simp [noMarkerB] at hm

theorem mark_visitLs (p : Expr → Bool) (hp : ∀ e, p e = true → isAxisB e = true) :
    ∀ l : List Expr, wfLKids l = true → normalL l = true → noMarkerL l = true →
    markLs p l = wrapAxesL p l
  | [] => by
      intro _ _ _
      rfl
  | c :: cs => by
      intro hw hn hm
      simp only [wfLKids, Bool.and_eq_true] at hw
      simp only [normalL, Bool.and_eq_true] at hn
      simp only [noMarkerL, Bool.and_eq_true] at hm
      have hc := mark_visit_eq p hp c hw.1.2 hn.1 hm.1 (by simpa using hw.1.1)
      show markGuard p false c (markKind p c) ++ markLs p cs = wrapAxes p c :: wrapAxesL p cs
      rw [show markGuard p false c (markKind p c) = markVisit p false c from rfl, hc,
        mark_visitLs p hp cs hw.2 hn.2 hm.2]
      rfl

theorem mark_visitCs (p : Expr → Bool) (hp : ∀ e, p e = true → isAxisB e = true) :
    ∀ l : List Expr, wfCKids l = true → normalL l = true → noMarkerL l = true →
    markCs p l = wrapAxesL p l
  | [] => by
      intro _ _ _
      rfl
  | c :: cs => by
      intro hw hn hm
      simp only [wfCKids, Bool.and_eq_true, beq_iff_eq] at hw
      simp only [normalL, Bool.and_eq_true] at hn
      simp only [noMarkerL, Bool.and_eq_true] at hm
      have hnotl : isList c = false := not_list_of_wf_len_one c hw.1.2 hn.1 hw.1.1
      have hc := mark_visit_eq p hp c hw.1.2 hn.1 hm.1 hnotl
      show emptyToAxis1 (listMaybe (markGuard p false c (markKind p c))) :: markCs p cs
          = wrapAxes p c :: wrapAxesL p cs
      rw [show markGuard p false c (markKind p c) = markVisit p false c from rfl, hc,
        mark_visitCs p hp cs hw.2 hn.2 hm.2]
      have hlm : listMaybe [wrapAxes p c] = wrapAxes p c := rfl
      rw [hlm]
      have hlen : (wrapAxes p c).len = 1 := by rw [wrapAxes_len]; exact hw.1.1
      simp [emptyToAxis1, hlen]
end

mutual
theorem wrapAxes_noNested (p : Expr → Bool) :
    ∀ e : Expr, noMarkerB e = true → noNestedB false (wrapAxes p e) = true
  | .axis n v => by
      intro _
      by_cases hpa : p (.axis n v) = true
      · simp [wrapAxes, hpa, noNestedB]
      · simp [wrapAxes, hpa, noNestedB]
  | .list cs => by
      intro hm
      show noNestedL false (wrapAxesL p cs) = true
      exact wrapAxes_noNestedL p cs (by simpa [noMarkerB] using hm)
  | .concat cs => by
      intro hm
      show noNestedL false (wrapAxesL p cs) = true
      exact wrapAxes_noNestedL p cs (by simpa [noMarkerB] using hm)
  | .comp i => by
      intro hm
      show noNestedB false (wrapAxes p i) = true
      exact wrapAxes_noNested p i (by simpa [noMarkerB] using hm)
  | .marker i => by
      intro hm
      simp [noMarkerB] at hm

theorem wrapAxes_noNestedL (p : Expr → Bool) :
    ∀ l : List Expr, noMarkerL l = true → noNestedL false (wrapAxesL p l) = true
  | [] => by
      intro _
      rfl
  | c :: cs => by
      intro hm
      simp only [noMarkerL, Bool.and_eq_true] at hm
      simp only [wrapAxesL, noNestedL, Bool.and_eq_true]
      exact ⟨wrapAxes_noNested p c hm.1, wrapAxes_noNestedL p cs hm.2⟩
end

/-- C9 counterexample: on `t = Marker (List [Axis a, Axis b])` with the
all-axes predicate, `mark` wraps the axes even though they lie inside a
`Marker` (their immediate parent is the `List`, and only the immediate parent
is checked), producing nested `Marker`s. -/
theorem C9_counterexample :
    mark isAxisB (.marker (.list [.axis "a" 2, .axis "b" 3]))
      = .marker (.list [.marker (.axis "a" 2), .marker (.axis "b" 3)])
  ∧ noNestedB false (mark isAxisB (.marker (.list [.axis "a" 2, .axis "b" 3]))) = false :=
  ⟨rfl, rfl⟩

/-- C9 (amended): `mark(t, p)` wraps every matching node that is not a
`Marker` and whose *immediate parent* is not a `Marker` in a fresh `Marker`
(nodes lying deeper inside a `Marker` are still wrapped, so nested `Marker`s
can occur); in particular, on a marker-free tree in `List.maybe` normal form
with a predicate matching only axes, `mark` wraps exactly the matching axes
and the result contains no nested `Marker`s. -/
theorem C9_mark_wraps_matching (p : Expr → Bool) (t : Expr)
    (hp : ∀ e, p e = true → isAxisB e = true)
    (h1 : wf t = true) (h2 : normalB t = true) (h3 : noMarkerB t = true) :
    mark p t = wrapAxes p t ∧ noNestedB false (mark p t) = true := by
  have hm : mark p t = wrapAxes p t := by
    unfold mark
    by_cases hl : isList t = true
    · match t, hl with
      | .list cs, _ =>
          have hpl : p (.list cs) = false := p_false_of_not_axis p hp _ rfl
          have h1' : markVisit p false (.list cs) = markLs p cs := by
            show markGuard p false (.list cs) (markKind p (.list cs)) = markLs p cs
            rw [markGuard_of_p_false p _ _ hpl]
            rfl
          rw [h1']
          have hkids : wfLKids cs = true := by simpa [wf] using h1
          have hcount : cs.length ≠ 1 := by
            simp only [normalB, Bool.and_eq_true, bne_iff_ne] at h2
            exact h2.1
          have hnl : normalL cs = true := by
            simp only [normalB, Bool.and_eq_true] at h2
            exact h2.2
          have hml : noMarkerL cs = true := by simpa [noMarkerB] using h3
          rw [show markLs p cs = wrapAxesL p cs from mark_visitLs p hp cs hkids hnl hml]
          rw [listMaybe_of_ne_one _ (by rw [wrapAxesL_length]; exact hcount)]
          rfl
    · have hl' : isList t = false := by simpa using hl
      rw [mark_visit_eq p hp t h1 h2 h3 hl']
      rfl
  exact ⟨hm, by rw [hm]; exact wrapAxes_noNested p t h3⟩

/-- C9 witness: the amended statement at a concrete marker-free tree with the
all-axes predicate. -/
theorem C9_mark_wraps_matching_witness :
    mark isAxisB (.list [.axis "a" 2, .axis "b" 3])
      = wrapAxes isAxisB (.list [.axis "a" 2, .axis "b" 3])
  ∧ noNestedB false (mark isAxisB (.list [.axis "a" 2, .axis "b" 3])) = true :=
  C9_mark_wraps_matching isAxisB (.list [.axis "a" 2, .axis "b" 3])
    (fun _ h => h) rfl rfl rfl

theorem not_pos_and_nonpos (m : List (Nat × Int)) (a : SExpr)
    (h1 : axisNonPositive m a = true) (h2 : axisResolvedPos m a = true) : False := by
  unfold axisNonPositive at h1
  unfold axisResolvedPos at h2
  match h : lookupId m (sid a) with
  | none => rw [h] at h1; exact absurd h1 (by simp)
  | some v =>
      rw [h] at h1 h2
      simp at h1 h2
      omega

mutual
theorem mapExpr_ok_pos (m : List (Nat × Int)) :
    ∀ e : SExpr, ∀ e' : Expr, mapExpr m e = .ok e' →
    ∀ a ∈ sAxes e, axisResolvedPos m a = true
  | .namedAxis i n => by
      intro e' hok a ha
      simp only [sAxes, List.mem_singleton] at ha
      subst ha
      unfold mapExpr at hok
      match h : lookupId m i with
      | none =>
          rw [h] at hok
          exact absurd hok (by simp)
      | some v =>
          rw [h] at hok
          have hok' : (if v ≤ 0 then (Except.error (MapErr.nonPositive n v) : Except MapErr Expr)
              else .ok (.axis n v)) = .ok e' := hok
          by_cases hv : v ≤ 0
          · rw [if_pos hv] at hok'
            exact absurd hok' (by simp)
          · have hgoal : axisResolvedPos m (.namedAxis i n) = decide (0 < v) := by
              unfold axisResolvedPos
              rw [show sid (.namedAxis i n) = i from rfl, h]
            rw [hgoal]
            simp
            omega
  | .unnamedAxis i v0 => by
      intro e' hok a ha
      simp only [sAxes, List.mem_singleton] at ha
      subst ha
      unfold mapExpr at hok
      match h : lookupId m i with
      | none =>
          rw [h] at hok
          exact absurd hok (by simp)
      | some v =>
          rw [h] at hok
          have hok' : (if v ≤ 0 then (Except.error (MapErr.nonPositive (toString v0) v)
                : Except MapErr Expr)
              else .ok (.axis ("unnamed." ++ toString i) v)) = .ok e' := hok
          by_cases hv : v ≤ 0
          · rw [if_pos hv] at hok'
            exact absurd hok' (by simp)
          · have hgoal : axisResolvedPos m (.unnamedAxis i v0) = decide (0 < v) := by
              unfold axisResolvedPos
              rw [show sid (.unnamedAxis i v0) = i from rfl, h]
            rw [hgoal]
            simp
            omega
  | .slist i cs => by
      intro e' hok a ha
      simp only [sAxes] at ha
      unfold mapExpr at hok
      match h : mapExprL m cs with
      | .error err => rw [h] at hok; exact Except.noConfusion hok
      | .ok l => exact mapExprL_ok_pos m cs l h a ha
  | .sconcat i cs => by
      intro e' hok a ha
      simp only [sAxes] at ha
      unfold mapExpr at hok
      match h : mapExprL m cs with
      | .error err => rw [h] at hok; exact Except.noConfusion hok
      | .ok l => exact mapExprL_ok_pos m cs l h a ha
  | .smarker i inner => by
      intro e' hok a ha
      simp only [sAxes] at ha
      unfold mapExpr at hok
      match h : mapExpr m inner with
      | .error err => rw [h] at hok; exact Except.noConfusion hok
      | .ok x => exact mapExpr_ok_pos m inner x h a ha
  | .scomp i inner => by
      intro e' hok a ha
      simp only [sAxes] at ha
      unfold mapExpr at hok
      match h : mapExpr m inner with
      | .error err => rw [h] at hok; exact Except.noConfusion hok
      | .ok x => exact mapExpr_ok_pos m inner x h a ha

theorem mapExprL_ok_pos (m : List (Nat × Int)) :
    ∀ cs : List SExpr, ∀ l : List Expr, mapExprL m cs = .ok l →
    ∀ a ∈ sAxesL cs, axisResolvedPos m a = true
  | [] => by
      intro l hok a ha
      simp [sAxesL] at ha
  | c :: cs => by
      intro l hok a ha
      simp only [sAxesL, List.mem_append] at ha
      unfold mapExprL at hok
      match h1 : mapExpr m c with
      | .error err => rw [h1] at hok; exact Except.noConfusion hok
      | .ok x =>
          rw [h1] at hok
          match h2 : mapExprL m cs with
          | .error err => rw [h2] at hok; exact Except.noConfusion hok
          | .ok r =>
              cases ha with
              | inl h => exact mapExpr_ok_pos m c x h1 a h
              | inr h => exact mapExprL_ok_pos m cs r h2 a h
end

mutual
theorem mapExpr_err_shape (m : List (Nat × Int)) :
    ∀ e : SExpr, (∀ a ∈ sAxes e, axisResolved m a = true) →
    ∀ err : MapErr, mapExpr m e = .error err → ∃ s v, err = .nonPositive s v ∧ v ≤ 0
  | .namedAxis i n => by
      intro hres err herr
      have hr := hres (.namedAxis i n) (by simp [sAxes])
      unfold axisResolved at hr
      rw [show sid (.namedAxis i n) = i from rfl] at hr
      match h : lookupId m i with
      | none => rw [h] at hr; exact absurd hr (by simp)
      | some v =>
          unfold mapExpr at herr
          rw [h] at herr
          have herr' : (if v ≤ 0 then (Except.error (MapErr.nonPositive n v) : Except MapErr Expr)
              else .ok (.axis n v)) = .error err := herr
          by_cases hv : v ≤ 0
          · rw [if_pos hv] at herr'
            injection herr' with he
            exact ⟨n, v, he.symm, hv⟩
          · rw [if_neg hv] at herr'
            exact Except.noConfusion herr'
  | .unnamedAxis i v0 => by
      intro hres err herr
      have hr := hres (.unnamedAxis i v0) (by simp [sAxes])
      unfold axisResolved at hr
      rw [show sid (.unnamedAxis i v0) = i from rfl] at hr
      match h : lookupId m i with
      | none => rw [h] at hr; exact absurd hr (by simp)
      | some v =>
          unfold mapExpr at herr
          rw [h] at herr
          have herr' : (if v ≤ 0 then (Except.error (MapErr.nonPositive (toString v0) v)
                : Except MapErr Expr)
              else .ok (.axis ("unnamed." ++ toString i) v)) = .error err := herr
          by_cases hv : v ≤ 0
          · rw [if_pos hv] at herr'
            injection herr' with he
            exact ⟨toString v0, v, he.symm, hv⟩
          · rw [if_neg hv] at herr'
            exact Except.noConfusion herr'
  | .slist i cs => by
      intro hres err herr
      unfold mapExpr at herr
      match h : mapExprL m cs with
      | .ok l => rw [h] at herr; exact Except.noConfusion herr
      | .error err' =>
          rw [h] at herr
          have herr' : (Except.error err' : Except MapErr Expr) = .error err := herr
          injection herr' with he
          subst he
          exact mapExprL_err_shape m cs (fun a ha => hres a (by simpa [sAxes] using ha)) err' h
  | .sconcat i cs => by
      intro hres err herr
      unfold mapExpr at herr
      match h : mapExprL m cs with
      | .ok l => rw [h] at herr; exact Except.noConfusion herr
      | .error err' =>
          rw [h] at herr
          have herr' : (Except.error err' : Except MapErr Expr) = .error err := herr
          injection herr' with he
          subst he
          exact mapExprL_err_shape m cs (fun a ha => hres a (by simpa [sAxes] using ha)) err' h
  | .smarker i inner => by
      intro hres err herr
      unfold mapExpr at herr
      match h : mapExpr m inner with
      | .ok x => rw [h] at herr; exact Except.noConfusion herr
      | .error err' =>
          rw [h] at herr
          have herr' : (Except.error err' : Except MapErr Expr) = .error err := herr
          injection herr' with he
          subst he
          exact mapExpr_err_shape m inner (fun a ha => hres a (by simpa [sAxes] using ha)) err' h
  | .scomp i inner => by
      intro hres err herr
      unfold mapExpr at herr
      match h : mapExpr m inner with
      | .ok x => rw [h] at herr; exact Except.noConfusion herr
      | .error err' =>
          rw [h] at herr
          have herr' : (Except.error err' : Except MapErr Expr) = .error err := herr
          injection herr' with he
          subst he
          exact mapExpr_err_shape m inner (fun a ha => hres a (by simpa [sAxes] using ha)) err' h

theorem mapExprL_err_shape (m : List (Nat × Int)) :
    ∀ cs : List SExpr, (∀ a ∈ sAxesL cs, axisResolved m a = true) →
    ∀ err : MapErr, mapExprL m cs = .error err → ∃ s v, err = .nonPositive s v ∧ v ≤ 0
  | [] => by
      intro hres err herr
      exact Except.noConfusion herr
  | c :: cs => by
      intro hres err herr
      unfold mapExprL at herr
      match h1 : mapExpr m c with
      | .error err' =>
          rw [h1] at herr
          have herr' : (Except.error err' : Except MapErr (List Expr)) = .error err := herr
          injection herr' with he
          subst he
          exact mapExpr_err_shape m c
            (fun a ha => hres a (by simp [sAxesL, List.mem_append]; exact Or.inl ha)) err' h1
      | .ok x =>
          rw [h1] at herr
          match h2 : mapExprL m cs with
          | .ok r => rw [h2] at herr; exact Except.noConfusion herr
          | .error err' =>
              rw [h2] at herr
              have herr' : (Except.error err' : Except MapErr (List Expr)) = .error err := herr
              injection herr' with he
              subst he
              exact mapExprL_err_shape m cs
                (fun a ha => hres a (by simp [sAxesL, List.mem_append]; exact Or.inr ha)) err' h2
end

mutual
theorem collectFailed_empty (m : List (Nat × Int)) :
    ∀ e : SExpr, collectFailed m e = [] →
    ∀ a ∈ sAxes e, isNamedS a = true → axisResolved m a = true
  | .namedAxis i n => by
      intro hc a ha _
      simp only [sAxes, List.mem_singleton] at ha
      subst ha
      unfold collectFailed at hc
      unfold axisResolved
      rw [show sid (.namedAxis i n) = i from rfl]
      match h : lookupId m i with
      | some v => simp
      | none =>
          rw [h] at hc
          simp at hc
  | .unnamedAxis i v0 => by
      intro hc a ha hn
      simp only [sAxes, List.mem_singleton] at ha
      subst ha
      simp [isNamedS] at hn
  | .slist i cs => by
      intro hc a ha hn
      exact collectFailed_emptyL m cs (by simpa [collectFailed] using hc) a
        (by simpa [sAxes] using ha) hn
  | .sconcat i cs => by
      intro hc a ha hn
      exact collectFailed_emptyL m cs (by simpa [collectFailed] using hc) a
        (by simpa [sAxes] using ha) hn
  | .smarker i inner => by
      intro hc a ha hn
      exact collectFailed_empty m inner (by simpa [collectFailed] using hc) a
        (by simpa [sAxes] using ha) hn
  | .scomp i inner => by
      intro hc a ha hn
      exact collectFailed_empty m inner (by simpa [collectFailed] using hc) a
        (by simpa [sAxes] using ha) hn

theorem collectFailed_emptyL (m : List (Nat × Int)) :
    ∀ cs : List SExpr, collectFailedL m cs = [] →
    ∀ a ∈ sAxesL cs, isNamedS a = true → axisResolved m a = true
  | [] => by
      intro _ a ha _
      simp [sAxesL] at ha
  | c :: cs => by
      intro hc a ha hn
      unfold collectFailedL at hc
      have hnil := List.append_eq_nil.mp hc
      simp only [sAxesL, List.mem_append] at ha
      cases ha with
      | inl h => exact collectFailed_empty m c hnil.1 a h hn
      | inr h => exact collectFailed_emptyL m cs hnil.2 a h hn
end

theorem mapRoots_ok_pos (m : List (Nat × Int)) :
    ∀ (roots : List SExpr) (out : List Expr), mapRoots m roots = .ok out →
    leavesPositiveB roots m = true := by
  intro roots
  induction roots with
  | nil =>
      intro out _
      rfl
  | cons r rs ih =>
      intro out hok
      unfold mapRoots at hok
      match h1 : mapExpr m r with
      | .error err => rw [h1] at hok; exact Except.noConfusion hok
      | .ok x =>
          rw [h1] at hok
          match h2 : mapRoots m rs with
          | .error err => rw [h2] at hok; exact Except.noConfusion hok
          | .ok l =>
              unfold leavesPositiveB
              rw [List.all_cons]
              have hhead : (sAxes r).all (axisResolvedPos m) = true :=
                List.all_eq_true.mpr (fun a ha => mapExpr_ok_pos m r x h1 a ha)
              have htail : leavesPositiveB rs m = true := ih l h2
              unfold leavesPositiveB at htail
              rw [hhead, htail]
              rfl

theorem mapRoots_err_shape (m : List (Nat × Int)) :
    ∀ roots : List SExpr, (∀ r ∈ roots, ∀ a ∈ sAxes r, axisResolved m a = true) →
    ∀ err : MapErr, mapRoots m roots = .error err →
    ∃ s v, err = .nonPositive s v ∧ v ≤ 0 := by
  intro roots
  induction roots with
  | nil =>
      intro _ err herr
      exact Except.noConfusion herr
  | cons r rs ih =>
      intro hres err herr
      unfold mapRoots at herr
      match h1 : mapExpr m r with
      | .error err' =>
          rw [h1] at herr
          have herr' : (Except.error err' : Except MapErr (List Expr)) = .error err := herr
          injection herr' with he
          subst he
          exact mapExpr_err_shape m r (hres r (by simp)) err' h1
      | .ok x =>
          rw [h1] at herr
          match h2 : mapRoots m rs with
          | .ok l => rw [h2] at herr; exact Except.noConfusion herr
          | .error err' =>
              rw [h2] at herr
              have herr' : (Except.error err' : Except MapErr (List Expr)) = .error err := herr
              injection herr' with he
              subst he
              exact ih (fun r' hr' => hres r' (by simp [hr'])) err' h2

theorem flatten_eq_nil_of_all {α : Type} (ls : List (List α)) (h : ls.flatten = []) :
    ∀ l ∈ ls, l = [] := by
  induction ls with
  | nil => intro l hl; simp at hl
  | cons x xs ih =>
      intro l hl
      rw [List.flatten_cons] at h
      have hnil := List.append_eq_nil.mp h
      cases hl with
      | head => exact hnil.1
      | tail _ hmem => exact ih hnil.2 l hmem

theorem failedEmpty_resolved (roots : List SExpr) (m : List (Nat × Int))
    (hf : failedAxesOf roots m = []) (hu : unnamedResolvedB roots m = true) :
    ∀ r ∈ roots, ∀ a ∈ sAxes r, axisResolved m a = true := by
  intro r hr a ha
  have hflat : ((roots.map (collectFailed m)).flatten) = [] := by
    have := hf
    unfold failedAxesOf at this
    exact (List.dedup_eq_nil _).mp this
  have hcoll : collectFailed m r = [] :=
    flatten_eq_nil_of_all _ hflat _ (List.mem_map_of_mem _ hr)
  by_cases hn : isNamedS a = true
  · exact collectFailed_empty m r hcoll a ha hn
  · have hu' := List.all_eq_true.mp (by exact hu) r hr
    have hu'' := List.all_eq_true.mp hu' a ha
    simp only [Bool.or_eq_true] at hu''
    cases hu'' with
    | inl h => exact absurd h hn
    | inr h => exact h

/-- C3: the post-solving phase of `solve` (given the solver's resolved values,
with every unnamed axis resolved — the solver pins unnamed axes through their
literal equations): when exactly one distinct named axis is unresolved, the
singular-phrased solve failure names it; when several are unresolved, the
plural-phrased solve failure names them; when all leaves are resolved but
some value is `<= 0`, the solve failure names a non-positive axis; and a
successful result implies every leaf axis resolved to a strictly positive
value (no clamping). -/
theorem C3_solve_failure (roots : List SExpr) (m : List (Nat × Int))
    (hu : unnamedResolvedB roots m = true) :
    (∀ a, failedAxesOf roots m = [a] →
        solveTail roots m = .solveFailure (.noUniqueSingle a))
  ∧ (2 ≤ (failedAxesOf roots m).length →
        solveTail roots m = .solveFailure (.noUniqueMulti (failedAxesOf roots m)))
  ∧ (failedAxesOf roots m = [] → someNonPositiveB roots m = true →
        ∃ s v, v ≤ 0 ∧ solveTail roots m = .solveFailure (.nonPositive s v))
  ∧ (∀ out, solveTail roots m = .ok out → leavesPositiveB roots m = true) := by
  refine ⟨?_, ?_, ?_, ?_⟩
  · intro a hf
    unfold solveTail
    rw [hf]
  · intro h2
    unfold solveTail
    match hf : failedAxesOf roots m with
    | [] => rw [hf] at h2; simp at h2
    | [a] => rw [hf] at h2; simp at h2
    | a :: b :: t => rfl
  · intro hf hnp
    have hres := failedEmpty_resolved roots m hf hu
    match hmap : mapRoots m roots with
    | .ok out =>
        exfalso
        have hpos := mapRoots_ok_pos m roots out hmap
        obtain ⟨r, hr, a, ha, hnpa⟩ : ∃ r ∈ roots, ∃ a ∈ sAxes r,
            axisNonPositive m a = true := by
          have := List.any_eq_true.mp hnp
          obtain ⟨r, hr, h⟩ := this
          obtain ⟨a, ha, h2⟩ := List.any_eq_true.mp h
          exact ⟨r, hr, a, ha, h2⟩
        have hposr := List.all_eq_true.mp (List.all_eq_true.mp hpos r hr) a ha
        exact not_pos_and_nonpos m a hnpa hposr
    | .error err =>
        obtain ⟨s, v, herr, hv⟩ := mapRoots_err_shape m roots hres err hmap
        refine ⟨s, v, hv, ?_⟩
        unfold solveTail
        rw [hf, hmap, herr]
  · intro out hok
    match hf : failedAxesOf roots m with
    | [a] =>
        unfold solveTail at hok
        rw [hf] at hok
        exact SolveOutcome.noConfusion hok
    | a :: b :: t =>
        unfold solveTail at hok
        rw [hf] at hok
        exact SolveOutcome.noConfusion hok
    | [] =>
        unfold solveTail at hok
        rw [hf] at hok
        match hmap : mapRoots m roots with
        | .ok l =>
            exact mapRoots_ok_pos m roots l hmap
        | .error .assertFail =>
            rw [hmap] at hok
            exact SolveOutcome.noConfusion hok
        | .error (.nonPositive s v) =>
            rw [hmap] at hok
            exact SolveOutcome.noConfusion hok

/-- C3 witness: the singular failure at a concrete forest where exactly the
named axis `b` is unresolved (no unnamed axes, so the side condition holds
vacuously). -/
theorem C3_solve_failure_witness :
    solveTail [.slist 0 [.namedAxis 1 "a", .namedAxis 2 "b"]] [(1, 2)]
      = .solveFailure (.noUniqueSingle "b") :=
  (C3_solve_failure [.slist 0 [.namedAxis 1 "a", .namedAxis 2 "b"]] [(1, 2)]
    (by decide)).1 "b" (by decide)
